import Mathlib

/-!
Verification of the music-search crawler core against its specification.

The Python sources are embedded shallowly: dictionaries become association
lists, the time type becomes integer seconds, network and filesystem effects
become explicit outcome parameters, and every caught-exception branch becomes
an explicit constructor of an outcome type.  Each definition cites the source
function it embeds.
-/

namespace MusicSearch

/-- Embeds a song dictionary as produced by the crawler and stored in the
dataset file.  A field holding `none` corresponds to the key being absent
from the Python dict (`dict.get` returning `None`). -/
structure Song where
  id : Option String
  singer : Option String
  singerId : Option String
  title : Option String
  url : Option String
  downloadUrl : Option String
  deriving DecidableEq, Repr

/-- Python f-string interpolation of a possibly-missing value:
`f"{None}"` renders as the string `"None"`. -/
def pyStr : Option String → String
  | none => "None"
  | some s => s

/-- Embeds the key function `song_key` / `sk` of
`main_crawler.MusicCrawlerManager._merge_songs_into_file` (lines 39-40) and
`crawl_songs.SongCrawler._merge_songs_into_file` (lines 293-294):
`s.get('id') or f"{s.get('singer_name')}::{s.get('title')}"`.
A missing id, and also an empty-string id (falsy in Python), fall back to
the composite key. -/
def songKey (s : Song) : String :=
  match s.id with
  | some i => if i = "" then pyStr s.singer ++ "::" ++ pyStr s.title else i
  | none => pyStr s.singer ++ "::" ++ pyStr s.title

/-- Association-list lookup, embedding Python dict lookup. -/
def lookupA {β : Type} : List (String × β) → String → Option β
  | [], _ => none
  | (k, v) :: t, key => if k = key then some v else lookupA t key

/-- Association-list insert-or-replace, embedding Python dict assignment:
an existing key keeps its insertion position and gets the new value, a new
key is appended at the end (Python dicts preserve insertion order). -/
def upsertA {β : Type} : List (String × β) → String → β → List (String × β)
  | [], key, v => [(key, v)]
  | (k, w) :: t, key, v => if k = key then (key, v) :: t else (k, w) :: upsertA t key v

/-- The keyed map used by the merge functions (`id2song` / `id_to_song`). -/
abbrev SongMap := List (String × Song)

/-- Embeds the overlay loop of both merge functions:
`for s in songs: id2song[sk(s)] = s`. -/
def overlay (m : SongMap) (songs : List Song) : SongMap :=
  songs.foldl (fun acc s => upsertA acc (songKey s) s) m

/-- Embeds the dict comprehension building the key map from existing songs. -/
def buildMap (songs : List Song) : SongMap :=
  overlay [] songs

/-- Embeds the core of both `_merge_songs_into_file` implementations
(`crawl_songs.py` lines 292-298 and `main_crawler.py` lines 38-44): build a
key map from the existing songs, overlay the new songs by key, and list the
values in insertion order (`final_songs = list(id2song.values())`). -/
def mergeSongs (songsToMerge existing : List Song) : List Song :=
  (overlay (buildMap existing) songsToMerge).map Prod.snd

/-- Embeds the per-singer counting loop shared by both merge functions and by
`save_to_file`: `singer_stats[n] = singer_stats.get(n, 0) + 1` in iteration
order. -/
def bump : List (String × Nat) → String → List (String × Nat)
  | [], n => [(n, 1)]
  | (k, c) :: t, n => if k = n then (k, c + 1) :: t else (k, c) :: bump t n

/-- Embeds `s.get('singer_name', '未知')` for a song dict. -/
def statName (s : Song) : String :=
  s.singer.getD "未知"

/-- Recomputed per-singer counts over the final merged song list. -/
def singerStats (songs : List Song) : List (String × Nat) :=
  songs.foldl (fun st s => bump st (statName s)) []

/-- Embeds the dataset object written by the merge functions:
fields `total_songs`, `total_singers`, `crawl_time`, `singer_stats`,
`songs`. -/
structure Dataset where
  totalSongs : Nat
  totalSingers : Nat
  crawlTime : String
  stats : List (String × Nat)
  songs : List Song
  deriving DecidableEq, Repr

/-- Builds the output dataset exactly as both merge functions do, with the
aggregates recomputed from the final merged song list. -/
def mkDataset (now : String) (songs : List Song) : Dataset :=
  { totalSongs := songs.length
    totalSingers := (singerStats songs).length
    crawlTime := now
    stats := singerStats songs
    songs := songs }

/-- State of the destination dataset file.  `corrupt raw` stands for a file
whose bytes `raw` make `json.load` (or the subsequent field access) raise. -/
inductive FileState where
  | absent
  | corrupt (raw : String)
  | data (d : Dataset)
  deriving DecidableEq, Repr

/-- Outcome of one whole-file JSON write, i.e. `open(dest, 'w')` followed by
`json.dump`: either the dump completes, or it raises after `open` has
already truncated the destination, leaving `partialRaw` bytes in the file —
a proper prefix of the serialization, which is never complete JSON, so the
destination is left in a corrupt state. -/
inductive WriteOutcome where
  | ok
  | fail (partialRaw : String)
  deriving DecidableEq, Repr

/-- Embeds `crawl_songs.SongCrawler._merge_songs_into_file` (lines 283-315).
The whole body runs inside one `try`: an unreadable destination raises in
`json.load` before any write, so the exception is caught and logged with the
destination untouched; otherwise `open(dest, 'w')` truncates the destination
and `json.dump` streams into it (lines 311-312), so a write that raises
mid-dump is caught and logged but leaves the truncated partial bytes at the
destination.  An absent destination merges into an empty song list. -/
def SongCrawler_mergeSongsIntoFile (now : String) (songsToMerge : List Song)
    (dest : FileState) (write : WriteOutcome) : FileState :=
  match dest with
  | .corrupt raw => .corrupt raw
  | .absent =>
      match write with
      | .ok => .data (mkDataset now (mergeSongs songsToMerge []))
      | .fail partialRaw => .corrupt partialRaw
  | .data d =>
      match write with
      | .ok => .data (mkDataset now (mergeSongs songsToMerge d.songs))
      | .fail partialRaw => .corrupt partialRaw

/-- Embeds `main_crawler.MusicCrawlerManager._merge_songs_into_file`
(lines 29-68).  Any exception in the main body — an unreadable destination
raising in `json.load`, or the merged write at lines 57-58 raising after
`open` truncated the file — reaches the `except` branch (lines 60-66), which
falls back to re-opening the destination (truncating it again) and writing
only the new songs with zeroed aggregates (`'total_singers': 0,
'singer_stats': {}`), returning their count; if that fallback dump also
raises, the inner `except` returns 0 with the truncated fallback bytes left
at the destination. -/
def MusicCrawlerManager_mergeSongsIntoFile (now : String) (newSongs : List Song)
    (dest : FileState) (write fallbackWrite : WriteOutcome) : FileState × Nat :=
  match dest with
  | .corrupt _ =>
      match fallbackWrite with
      | .ok =>
          (.data { totalSongs := newSongs.length, totalSingers := 0,
                   crawlTime := now, stats := [], songs := newSongs },
           newSongs.length)
      | .fail partialRaw => (.corrupt partialRaw, 0)
  | .absent =>
      match write with
      | .ok =>
          let fs := mergeSongs newSongs []
          (.data (mkDataset now fs), fs.length)
      | .fail _ =>
          match fallbackWrite with
          | .ok =>
              (.data { totalSongs := newSongs.length, totalSingers := 0,
                       crawlTime := now, stats := [], songs := newSongs },
               newSongs.length)
          | .fail partialRaw => (.corrupt partialRaw, 0)
  | .data d =>
      match write with
      | .ok =>
          let fs := mergeSongs newSongs d.songs
          (.data (mkDataset now fs), fs.length)
      | .fail _ =>
          match fallbackWrite with
          | .ok =>
              (.data { totalSongs := newSongs.length, totalSingers := 0,
                       crawlTime := now, stats := [], songs := newSongs },
               newSongs.length)
          | .fail partialRaw => (.corrupt partialRaw, 0)

/-- One entry of the `singer_last_crawl` map in `crawl_cache.json`.
`ok t` is a timestamp string that `datetime.fromisoformat` parses to time
`t` (integer seconds); `bad raw` is a string on which parsing raises. -/
inductive TsEntry where
  | ok (t : Int)
  | bad (raw : String)
  deriving DecidableEq, Repr

/-- The recrawl cache, keyed by singer id (the inner
`singer_last_crawl` map of `crawl_cache.json`). -/
abbrev RecrawlCache := List (String × TsEntry)

/-- Embeds `crawl_songs.SongCrawler._get_last_crawl_ts` (lines 87-94): a
missing entry gives `None`, and an entry whose timestamp fails to parse has
its exception caught and also gives `None`. -/
def getLastCrawlTs (cache : RecrawlCache) (singerId : String) : Option Int :=
  match lookupA cache singerId with
  | none => none
  | some (.bad _) => none
  | some (.ok t) => some t

/-- Seconds per day, the scale of `timedelta(days=n)`. -/
def secPerDay : Int := 86400

/-- Embeds `crawl_songs.SongCrawler._is_recent` (lines 96-100):
fresh iff a parsed timestamp exists and
`datetime.now() - last_dt < timedelta(days=self.cache_days)` (strict). -/
def isRecent (cache : RecrawlCache) (now : Int) (cacheDays : Int)
    (singerId : String) : Bool :=
  match getLastCrawlTs cache singerId with
  | none => false
  | some t => now - t < cacheDays * secPerDay

/-- Embeds `crawl_songs.SongCrawler._update_last_crawl` (lines 102-107):
stores the current time for the singer and persists the cache. -/
def updateLastCrawl (cache : RecrawlCache) (singerId : String) (now : Int) :
    RecrawlCache :=
  upsertA cache singerId (.ok now)

/-- Outcome of handling one work unit (one singer) in
`crawl_singer_songs`.  `exc` is a unit-level exception caught by the outer
`except` (lines 278-281); `pages ps` is a run where the page loop completed,
each page contributing either `none` (page fetch returned `None` and the page
was skipped) or the song list parsed from it. -/
inductive UnitOutcome where
  | exc
  | pages (ps : List (Option (List Song)))
  deriving DecidableEq, Repr

/-- Result of `crawl_singer_songs` for one unit: the songs returned, the
resulting recrawl cache, and whether `_update_last_crawl` (the markSuccess
write) was invoked. -/
structure CrawlUnitResult where
  songs : List Song
  cache : RecrawlCache
  markedSuccess : Bool
  deriving DecidableEq, Repr

/-- Embeds `crawl_songs.SongCrawler.crawl_singer_songs` (lines 239-281).
A fresh unit returns `[]` untouched; a unit-level exception is caught and
returns `[]` leaving the cache untouched; otherwise the songs of the
non-skipped pages are accumulated and `_update_last_crawl` is called
unconditionally at line 275 before returning. -/
def crawlSingerSongs (cache : RecrawlCache) (now : Int) (cacheDays : Int)
    (singerId : String) (outcome : UnitOutcome) : CrawlUnitResult :=
  if isRecent cache now cacheDays singerId then
    { songs := [], cache := cache, markedSuccess := false }
  else
    match outcome with
    | .exc => { songs := [], cache := cache, markedSuccess := false }
    | .pages ps =>
        { songs := (ps.filterMap id).flatten
          cache := updateLastCrawl cache singerId now
          markedSuccess := true }

/-- Embeds a proxy endpoint dict of `proxy_pool.py`. -/
structure Proxy where
  ip : String
  port : Nat
  protocol : String
  country : String
  speed : Int
  deriving DecidableEq, Repr

/-- The `"ip:port"` key used by `mark_proxy_failed`. -/
def proxyAddr (p : Proxy) : String :=
  p.ip ++ ":" ++ toString p.port

/-- Embeds `proxy_pool.ProxyPool.get_proxy_dict` (lines 226-232): the proxy
URL installed for both http and https. -/
def getProxyDict (p : Proxy) : String :=
  "http://" ++ p.ip ++ ":" ++ toString p.port

/-- Embeds `proxy_pool.ProxyPool.get_random_proxy` (lines 203-211): `none`
when the working list is empty, otherwise the random choice, modelled by an
externally supplied index reduced modulo the pool size. -/
def getRandomProxy (working : List Proxy) (r : Nat) : Option Proxy :=
  if working.isEmpty then none else working[r % working.length]?

/-- Embeds `proxy_pool.ProxyPool.mark_proxy_failed` (lines 213-224): removes
every working endpoint with the same `"ip:port"` address. -/
def markProxyFailed (working : List Proxy) (p : Proxy) : List Proxy :=
  working.filter (fun q => proxyAddr q != proxyAddr p)

/-- Outcome of one HTTP attempt inside `get_page_content`: a successful
response body, or a `requests.RequestException`. -/
inductive FetchAttempt where
  | ok (text : String)
  | fail
  deriving DecidableEq, Repr

/-- Trace of one `get_page_content` call: the final result, the proxy
setting of each request actually issued (`none` means a direct, no-proxy
request), and the backoff sleeps performed between attempts (in seconds). -/
structure FetchTrace where
  result : Option String
  requests : List (Option String)
  sleeps : List Nat
  deriving DecidableEq, Repr

/-- Embeds the retry loop of `crawl_songs.SongCrawler.get_page_content`
(lines 109-151).  Each attempt consumes one `(randomPick, outcome)` pair;
on failure the used proxy (if any) is marked failed, and unless this was the
last attempt the loop sleeps `(2 ** attempt) * (2.0 if safe_mode else 1.0)`
seconds before retrying. -/
def getPageContentAux (safeMode useProxy : Bool) (working : List Proxy)
    (attemptIdx : Nat) : List (Nat × FetchAttempt) → FetchTrace
  | [] => { result := none, requests := [], sleeps := [] }
  | (r, a) :: rest =>
    let currentProxy := if useProxy then getRandomProxy working r else none
    let proxyDict := currentProxy.map getProxyDict
    match a with
    | .ok text => { result := some text, requests := [proxyDict], sleeps := [] }
    | .fail =>
      let working2 :=
        match currentProxy with
        | some p => markProxyFailed working p
        | none => working
      if rest.isEmpty then
        { result := none, requests := [proxyDict], sleeps := [] }
      else
        let sleepSec := 2 ^ attemptIdx * (if safeMode then 2 else 1)
        let t := getPageContentAux safeMode useProxy working2 (attemptIdx + 1) rest
        { result := t.result, requests := proxyDict :: t.requests,
          sleeps := sleepSec :: t.sleeps }

/-- Embeds `get_page_content` from the first attempt. -/
def getPageContent (safeMode useProxy : Bool) (working : List Proxy)
    (attempts : List (Nat × FetchAttempt)) : FetchTrace :=
  getPageContentAux safeMode useProxy working 0 attempts

/-- Outcome of one download attempt inside
`download_songs.SongDownloader.download_song` (lines 210-271):
a `requests.RequestException` before the target file is opened (`reqFail`),
a `requests.RequestException` while streaming after `written` bytes reached
the target file (`streamFail`), any other exception (`otherFail`), or a
completed stream leaving `size` bytes in the file (`done`). -/
inductive DlAttempt where
  | reqFail
  | streamFail (written : Nat)
  | otherFail (written : Nat)
  | done (size : Nat)
  deriving DecidableEq, Repr

/-- Trace of one `download_song` call: the boolean result, the byte count of
the file left at the final target path (`none` when no file remains), and
the backoff sleeps performed between attempts. -/
structure DlTrace where
  result : Bool
  file : Option Nat
  sleeps : List Nat
  deriving DecidableEq, Repr

/-- Embeds the retry loop of `download_song` (lines 210-271).  The stream is
written directly to the final `filepath`; a completed non-empty stream
returns success, a completed empty stream deletes the file and retries, a
generic exception deletes the file and returns failure, and a
`RequestException` sleeps `2 ** attempt` seconds and retries unless this was
the last attempt, in which case it returns failure leaving the file as is.
The loop falling off the end (line 279) returns failure. -/
def downloadAttempts (attemptIdx : Nat) (file : Option Nat) :
    List DlAttempt → DlTrace
  | [] => { result := false, file := file, sleeps := [] }
  | a :: rest =>
    match a with
    | .reqFail =>
      if rest.isEmpty then { result := false, file := file, sleeps := [] }
      else
        let t := downloadAttempts (attemptIdx + 1) file rest
        { result := t.result, file := t.file, sleeps := 2 ^ attemptIdx :: t.sleeps }
    | .streamFail w =>
      if rest.isEmpty then { result := false, file := some w, sleeps := [] }
      else
        let t := downloadAttempts (attemptIdx + 1) (some w) rest
        { result := t.result, file := t.file, sleeps := 2 ^ attemptIdx :: t.sleeps }
    | .otherFail _ => { result := false, file := none, sleeps := [] }
    | .done n =>
      if n > 0 then { result := true, file := some n, sleeps := [] }
      else
        let t := downloadAttempts (attemptIdx + 1) none rest
        { result := t.result, file := t.file, sleeps := t.sleeps }

/-- Embeds `download_song` from the first attempt, with no file present at
the target path beforehand (the pre-loop existence check returned before the
loop otherwise). -/
def downloadSong (outcomes : List DlAttempt) : DlTrace :=
  downloadAttempts 0 none outcomes

/-- The nine illegal path characters replaced by
`download_songs.SongDownloader.sanitize_filename` (line 68). -/
def illegalChars : List Char :=
  ['<', '>', ':', '\"', '/', '\\', '|', '?', '*']

/-- Replacement applied to one character by the `filename.replace` loop. -/
def replChar (c : Char) : Char :=
  if c ∈ illegalChars then '_' else c

/-- Whitespace stripped by Python `str.strip()` (ASCII range). -/
def isPySpace (c : Char) : Bool :=
  c = ' ' || c = '\t' || c = '\n' || c = '\r' || c = '\x0b' || c = '\x0c'

/-- Removes trailing stripped characters, the right half of `str.strip()`. -/
def dropTrailing (l : List Char) : List Char :=
  (l.reverse.dropWhile isPySpace).reverse

/-- Embeds Python `str.strip()` on a character list. -/
def pyStrip (l : List Char) : List Char :=
  dropTrailing (l.dropWhile isPySpace)

/-- Embeds `download_songs.SongDownloader.sanitize_filename` (lines 65-76):
replace each illegal character by an underscore, truncate to 200
characters, then strip surrounding whitespace. -/
def sanitizeFilename (filename : String) : String :=
  String.mk (pyStrip ((filename.toList.map replChar).take 200))

/-- Embeds Python `str.strip()` on a string. -/
def pyStripStr (s : String) : String :=
  String.mk (pyStrip s.toList)

/-- One anchor tag matched by the `/mp3/([a-f0-9]+)\.html` pattern in
`parse_songs_from_singer_page`: the captured song id, the link text
(`link.get_text(strip=True)`), and the href. -/
structure SongLink where
  songId : String
  title : String
  href : String
  deriving DecidableEq, Repr

/-- Embeds `urljoin(self.base_url, href)` for the site-relative hrefs the
parser matches. -/
def urljoin (baseUrl href : String) : String :=
  baseUrl ++ href

/-- The song dict built at lines 181-191 of
`crawl_songs.SongCrawler.parse_songs_from_singer_page`. -/
def mkParsedSong (baseUrl singerId singerName : String) (l : SongLink) : Song :=
  { id := some l.songId
    singer := some singerName
    singerId := some singerId
    title := some l.title
    url := some (urljoin baseUrl l.href)
    downloadUrl := some (baseUrl ++ "/plug/down.php?ac=music&id=" ++ l.songId) }

/-- In-place update of the `title` field, embedding
`songs_dict[song_id]['title'] = song_title`. -/
def withTitle (s : Song) (t : String) : Song :=
  { s with title := some t }

/-- Replaces the title of the entry stored under `key`, keeping its
position, as the dict mutation at line 179 does. -/
def setTitle : List (String × Song) → String → String → List (String × Song)
  | [], _, _ => []
  | (k, s) :: rest, key, t =>
      if k = key then (k, withTitle s t) :: rest
      else (k, s) :: setTitle rest key t

/-- The title stored for a parsed song (always present on dicts built by the
parser). -/
def storedTitle (s : Song) : String :=
  s.title.getD ""

/-- The title that the dedup loop of `parse_songs_from_singer_page` keeps
when a second link with the same song id arrives: the new title when it is
strictly longer or the stored one is empty, otherwise the stored one. -/
def keptTitle (t1 t2 : String) : String :=
  if t2.length > t1.length ∨ t1 = "" then t2 else t1

/-- Embeds the body of the link loop of `parse_songs_from_singer_page`
(lines 161-192): a new id is appended; an id already seen keeps its dict and
replaces only the title when the new title is longer or the existing title
is empty. -/
def parseStep (baseUrl singerId singerName : String)
    (dict : List (String × Song)) (l : SongLink) : List (String × Song) :=
  match lookupA dict l.songId with
  | some existing =>
      if l.title.length > (storedTitle existing).length ∨ storedTitle existing = "" then
        setTitle dict l.songId l.title
      else dict
  | none => dict ++ [(l.songId, mkParsedSong baseUrl singerId singerName l)]

/-- Embeds `crawl_songs.SongCrawler.parse_songs_from_singer_page`
(lines 153-203): fold the matched links into the dedup dict, then keep only
the songs whose title is non-empty after stripping. -/
def parseSongsFromSingerPage (baseUrl singerId singerName : String)
    (links : List SongLink) : List Song :=
  ((links.foldl (parseStep baseUrl singerId singerName) []).map Prod.snd).filter
    (fun s => pyStripStr (storedTitle s) ≠ "")

/-- Modelled from the spec: the backoff delay the spec prescribes for a
failed attempt at index `i` — exponential in the attempt index, multiplied
by a fixed factor when conservative pacing (safe mode) is active, with a
small positive random jitter added on top. -/
def specBackoffDelay (safeFactorActive : Bool) (i : Nat) (delay : Nat) : Prop :=
  ∃ jitter : Nat, 0 < jitter ∧
    delay = 2 ^ i * (if safeFactorActive then 2 else 1) + jitter

/-- Number of leading failed attempts of a `get_page_content` run. -/
def leadFails : List (Nat × FetchAttempt) → Nat
  | [] => 0
  | (_, .ok _) :: _ => 0
  | (_, .fail) :: rest => leadFails rest + 1

/-- A download attempt outcome that is a network-level
(`requests.RequestException`) failure. -/
def isNetFail (a : DlAttempt) : Prop :=
  a = .reqFail ∨ ∃ w, a = .streamFail w

/-! Lemmas about the association-list maps used by the merge functions. -/

/-- Keys of an association list, in insertion order. -/
def keysA {β : Type} (m : List (String × β)) : List String :=
  m.map Prod.fst

theorem lookupA_upsertA {β : Type} (m : List (String × β)) (k : String) (v : β)
    (key : String) :
    lookupA (upsertA m k v) key = if key = k then some v else lookupA m key := by
  induction m with
  | nil =>
    by_cases h : key = k
    · simp [upsertA, lookupA, h]
    · simp [upsertA, lookupA, h, (Ne.symm h : ¬ k = key)]
  | cons p t ih =>
    obtain ⟨k0, w⟩ := p
    by_cases h0 : k0 = k
    · subst h0
      by_cases h : key = k0
      · simp [upsertA, lookupA, h]
      · simp [upsertA, lookupA, h, (Ne.symm h : ¬ k0 = key)]
    · by_cases h : k0 = key
      · subst h
        simp [upsertA, lookupA, h0, if_neg h0]
      · simp [upsertA, lookupA, if_neg h0, if_neg h, ih]

theorem keysA_upsertA {β : Type} (m : List (String × β)) (k : String) (v : β) :
    keysA (upsertA m k v) =
      if k ∈ keysA m then keysA m else keysA m ++ [k] := by
  induction m with
  | nil => simp [upsertA, keysA]
  | cons p t ih =>
    obtain ⟨k0, w⟩ := p
    by_cases h0 : k0 = k
    · subst h0
      simp [upsertA, keysA]
    · have hne : ¬ k = k0 := fun h => h0 h.symm
      simp only [upsertA, if_neg h0, keysA, List.map_cons, List.mem_cons]
      simp only [keysA] at ih
      rw [ih]
      by_cases hm : k ∈ t.map Prod.fst
      · simp [hm, hne]
      · simp [hm, hne]

theorem nodup_keysA_upsertA {β : Type} (m : List (String × β)) (k : String)
    (v : β) (h : (keysA m).Nodup) : (keysA (upsertA m k v)).Nodup := by
  rw [keysA_upsertA]
  by_cases hm : k ∈ keysA m
  · simpa [hm] using h
  · simp only [hm, if_false]
    simpa [List.nodup_append] using ⟨h, hm⟩

/-- Every pair stored by the merge maps satisfies the key invariant. -/
def KeyInv (m : SongMap) : Prop :=
  ∀ p ∈ m, p.1 = songKey p.2

theorem keyInv_upsertA (m : SongMap) (s : Song)
    (h : KeyInv m) : KeyInv (upsertA m (songKey s) s) := by
  induction m with
  | nil =>
    intro p hp
    simp [upsertA] at hp
    simp [hp]
  | cons q t ih =>
    obtain ⟨k0, w⟩ := q
    have hq : k0 = songKey w := h (k0, w) (by simp)
    have ht : KeyInv t := fun p hp => h p (List.mem_cons_of_mem _ hp)
    by_cases h0 : k0 = songKey s
    · intro p hp
      simp only [upsertA, if_pos h0] at hp
      rcases List.mem_cons.1 hp with h1 | h1
      · simp [h1]
      · exact h p (List.mem_cons_of_mem _ h1)
    · intro p hp
      simp only [upsertA, if_neg h0] at hp
      rcases List.mem_cons.1 hp with h1 | h1
      · subst h1; exact hq
      · exact ih ht p h1

theorem keyInv_overlay (m : SongMap) (songs : List Song)
    (h : KeyInv m) : KeyInv (overlay m songs) := by
  induction songs generalizing m with
  | nil => simpa [overlay]
  | cons s rest ih =>
    simpa [overlay] using ih _ (keyInv_upsertA m s h)

theorem nodup_keysA_overlay (m : SongMap) (songs : List Song)
    (h : (keysA m).Nodup) : (keysA (overlay m songs)).Nodup := by
  induction songs generalizing m with
  | nil => simpa [overlay]
  | cons s rest ih =>
    simpa [overlay] using ih _ (nodup_keysA_upsertA m (songKey s) s h)

theorem mem_keysA_upsertA_self {β : Type} (m : List (String × β)) (k : String)
    (v : β) : k ∈ keysA (upsertA m k v) := by
  rw [keysA_upsertA]
  by_cases hm : k ∈ keysA m <;> simp [hm]

theorem mem_keysA_upsertA_mono {β : Type} (m : List (String × β))
    (k key : String) (v : β) (h : key ∈ keysA m) :
    key ∈ keysA (upsertA m k v) := by
  rw [keysA_upsertA]
  by_cases hm : k ∈ keysA m <;> simp [hm, h]

theorem mem_keysA_overlay_mono (m : SongMap) (songs : List Song) (key : String)
    (h : key ∈ keysA m) : key ∈ keysA (overlay m songs) := by
  induction songs generalizing m with
  | nil => simpa [overlay]
  | cons s rest ih =>
    simpa [overlay] using ih _ (mem_keysA_upsertA_mono m (songKey s) key s h)

theorem mem_keysA_overlay (m : SongMap) (songs : List Song) (s : Song)
    (h : s ∈ songs) : songKey s ∈ keysA (overlay m songs) := by
  induction songs generalizing m with
  | nil => cases h
  | cons a rest ih =>
    rcases List.mem_cons.1 h with h1 | h1
    · subst h1
      simpa [overlay] using
        mem_keysA_overlay_mono _ rest _ (mem_keysA_upsertA_self m (songKey s) s)
    · simpa [overlay] using ih _ h1

theorem keysA_overlay_of_mem (m : SongMap) (songs : List Song)
    (h : ∀ s ∈ songs, songKey s ∈ keysA m) :
    keysA (overlay m songs) = keysA m := by
  induction songs generalizing m with
  | nil => simp [overlay]
  | cons s rest ih =>
    have hs : songKey s ∈ keysA m := h s (by simp)
    have hk : keysA (upsertA m (songKey s) s) = keysA m := by
      rw [keysA_upsertA, if_pos hs]
    have hrest : ∀ t ∈ rest, songKey t ∈ keysA (upsertA m (songKey s) s) := by
      intro t ht
      rw [hk]
      exact h t (List.mem_cons_of_mem _ ht)
    calc keysA (overlay m (s :: rest))
        = keysA (overlay (upsertA m (songKey s) s) rest) := by simp [overlay]
      _ = keysA (upsertA m (songKey s) s) := ih _ hrest
      _ = keysA m := hk

/-- The last song of a list whose key is `k`, mirroring which value a
sequence of dict assignments leaves in place. -/
def lastFind : List Song → String → Option Song
  | [], _ => none
  | s :: rest, k =>
    match lastFind rest k with
    | some t => some t
    | none => if songKey s = k then some s else none

theorem lookupA_overlay (m : SongMap) (songs : List Song) (k : String) :
    lookupA (overlay m songs) k =
      match lastFind songs k with
      | some s => some s
      | none => lookupA m k := by
  induction songs generalizing m with
  | nil => simp [overlay, lastFind]
  | cons s rest ih =>
    have step : overlay m (s :: rest) = overlay (upsertA m (songKey s) s) rest := by
      simp [overlay]
    rw [step, ih]
    rcases hl : lastFind rest k with _ | t
    · simp only [lastFind, hl, lookupA_upsertA]
      by_cases hk : songKey s = k
      · simp [hk]
      · have : ¬ k = songKey s := fun h => hk h.symm
        simp [hk, this]
    · simp [lastFind, hl]

theorem lookupA_eq_none_of_not_mem {β : Type} (m : List (String × β))
    (k : String) (h : k ∉ keysA m) : lookupA m k = none := by
  induction m with
  | nil => simp [lookupA]
  | cons p t ih =>
    obtain ⟨k0, w⟩ := p
    simp only [keysA, List.map_cons, List.mem_cons] at h
    push_neg at h
    have : ¬ k0 = k := fun hk => h.1 hk.symm
    simp only [lookupA, if_neg this]
    exact ih (by simpa [keysA] using h.2)

/-- Association lists with the same ordered key list, the same lookups and
no duplicate keys are equal. -/
theorem assoc_ext {β : Type} (m1 m2 : List (String × β))
    (hkeys : keysA m1 = keysA m2)
    (hlook : ∀ k, lookupA m1 k = lookupA m2 k)
    (hnd : (keysA m1).Nodup) : m1 = m2 := by
  induction m1 generalizing m2 with
  | nil =>
    cases m2 with
    | nil => rfl
    | cons q t2 => simp [keysA] at hkeys
  | cons p t1 ih =>
    cases m2 with
    | nil => simp [keysA] at hkeys
    | cons q t2 =>
      obtain ⟨k1, v1⟩ := p
      obtain ⟨k2, v2⟩ := q
      simp only [keysA, List.map_cons, List.cons.injEq] at hkeys
      obtain ⟨hk, htk⟩ := hkeys
      subst hk
      have hv : v1 = v2 := by
        have := hlook k1
        simpa [lookupA] using this
      subst hv
      have hnd1 : (keysA t1).Nodup := by
        simpa [keysA] using (List.nodup_cons.1 (by simpa [keysA] using hnd)).2
      have hk1 : k1 ∉ keysA t1 :=
        (List.nodup_cons.1 (by simpa [keysA] using hnd)).1
      have hk2 : k1 ∉ keysA t2 := by
        simp only [keysA] at hk1 ⊢
        rw [← htk]; exact hk1
      have hlt : ∀ k, lookupA t1 k = lookupA t2 k := by
        intro k
        by_cases hkk : k = k1
        · subst hkk
          rw [lookupA_eq_none_of_not_mem t1 k hk1,
            lookupA_eq_none_of_not_mem t2 k hk2]
        · have := hlook k
          simpa [lookupA, if_neg (Ne.symm hkk : ¬ k1 = k)] using this
      exact congrArg (List.cons (k1, v1)) (ih t2 (by simpa [keysA] using htk) hlt hnd1)

theorem overlay_cons_of_ne (songs : List Song) (acc : SongMap) (k : String)
    (v : Song) (h : ∀ s ∈ songs, songKey s ≠ k) :
    overlay ((k, v) :: acc) songs = (k, v) :: overlay acc songs := by
  induction songs generalizing acc with
  | nil => simp [overlay]
  | cons s rest ih =>
    have hs : ¬ k = songKey s := fun hk => h s (by simp) hk.symm
    have step : upsertA ((k, v) :: acc) (songKey s) s =
        (k, v) :: upsertA acc (songKey s) s := by
      simp [upsertA, hs]
    calc overlay ((k, v) :: acc) (s :: rest)
        = overlay (upsertA ((k, v) :: acc) (songKey s) s) rest := by simp [overlay]
      _ = overlay ((k, v) :: upsertA acc (songKey s) s) rest := by rw [step]
      _ = (k, v) :: overlay (upsertA acc (songKey s) s) rest :=
          ih _ (fun t ht => h t (List.mem_cons_of_mem _ ht))
      _ = (k, v) :: overlay acc (s :: rest) := by simp [overlay]

theorem buildMap_values (m : SongMap) (hnd : (keysA m).Nodup)
    (hinv : KeyInv m) : buildMap (m.map Prod.snd) = m := by
  induction m with
  | nil => simp [buildMap, overlay]
  | cons p t ih =>
    obtain ⟨k, v⟩ := p
    have hk : k = songKey v := hinv (k, v) (by simp)
    have hknd : k ∉ keysA t ∧ (keysA t).Nodup := by
      constructor
      · exact (List.nodup_cons.1 (by simpa [keysA] using hnd)).1
      · simpa [keysA] using (List.nodup_cons.1 (by simpa [keysA] using hnd)).2
    have hne : ∀ s ∈ t.map Prod.snd, songKey s ≠ k := by
      intro s hs hkey
      obtain ⟨q, hq, hqs⟩ := List.mem_map.1 hs
      have : q.1 = songKey q.2 := hinv q (List.mem_cons_of_mem _ hq)
      have hq1 : q.1 = k := by rw [this, hqs, hkey]
      exact hknd.1 (by simpa [keysA, hq1] using List.mem_map_of_mem Prod.fst hq)
    calc buildMap (((k, v) :: t).map Prod.snd)
        = overlay (upsertA [] (songKey v) v) (t.map Prod.snd) := by
          simp [buildMap, overlay]
      _ = overlay [(k, v)] (t.map Prod.snd) := by simp [upsertA, hk]
      _ = (k, v) :: overlay [] (t.map Prod.snd) := overlay_cons_of_ne _ _ _ _ hne
      _ = (k, v) :: t := by
          rw [show overlay [] (t.map Prod.snd) = buildMap (t.map Prod.snd) from rfl,
            ih hknd.2 (fun q hq => hinv q (List.mem_cons_of_mem _ hq))]

theorem overlay_overlay (m : SongMap) (songs : List Song)
    (hnd : (keysA m).Nodup) : overlay (overlay m songs) songs = overlay m songs := by
  apply assoc_ext
  · exact keysA_overlay_of_mem _ _ (fun s hs => mem_keysA_overlay m songs s hs)
  · intro k
    rw [lookupA_overlay, lookupA_overlay]
    rcases lastFind songs k with _ | t <;> simp
  · exact nodup_keysA_overlay _ _ (nodup_keysA_overlay _ _ hnd)

theorem mergeSongs_idem (newSongs existing : List Song) :
    mergeSongs newSongs (mergeSongs newSongs existing) =
      mergeSongs newSongs existing := by
  have hnd0 : (keysA (buildMap existing)).Nodup :=
    nodup_keysA_overlay [] existing (by simp [keysA])
  have hinv0 : KeyInv (buildMap existing) :=
    keyInv_overlay [] existing (by intro p hp; cases hp)
  have hnd1 : (keysA (overlay (buildMap existing) newSongs)).Nodup :=
    nodup_keysA_overlay _ _ hnd0
  have hinv1 : KeyInv (overlay (buildMap existing) newSongs) :=
    keyInv_overlay _ _ hinv0
  show (overlay (buildMap ((overlay (buildMap existing) newSongs).map Prod.snd))
      newSongs).map Prod.snd = _
  rw [buildMap_values _ hnd1 hinv1, overlay_overlay _ _ hnd0]
  rfl

theorem lookupA_mem {β : Type} (m : List (String × β)) (k : String) (v : β)
    (h : lookupA m k = some v) : (k, v) ∈ m := by
  induction m with
  | nil => simp [lookupA] at h
  | cons p t ih =>
    obtain ⟨k0, w⟩ := p
    by_cases h0 : k0 = k
    · subst h0
      simp only [lookupA, if_pos rfl] at h
      have hw : w = v := by simpa using h
      subst hw
      simp
    · simp only [lookupA, if_neg h0] at h
      exact List.mem_cons_of_mem _ (ih h)

theorem mem_lookupA {β : Type} (m : List (String × β)) (k : String) (v : β)
    (hm : (k, v) ∈ m) (hnd : (keysA m).Nodup) : lookupA m k = some v := by
  induction m with
  | nil => cases hm
  | cons p t ih =>
    obtain ⟨k0, w⟩ := p
    rcases List.mem_cons.1 hm with h1 | h1
    · injection h1 with h1a h1b
      simp [lookupA, h1a.symm, h1b]
    · have hk0 : k0 ∉ keysA t := (List.nodup_cons.1 (by simpa [keysA] using hnd)).1
      have hkne : ¬ k0 = k := by
        intro hk
        subst hk
        exact hk0 (by simpa [keysA] using List.mem_map_of_mem Prod.fst h1)
      simp only [lookupA, if_neg hkne]
      exact ih h1 (by simpa [keysA] using (List.nodup_cons.1 (by simpa [keysA] using hnd)).2)

/-! Claim theorems. -/

/-- Concrete song used in counterexamples and witnesses. -/
def songA : Song :=
  { id := some "abc123", singer := some "张三", singerId := some "s9",
    title := some "A", url := some "https://www.33ve.com/mp3/abc123.html",
    downloadUrl := some "https://www.33ve.com/plug/down.php?ac=music&id=abc123" }

/-- Concrete song sharing `songA`'s id with a longer title. -/
def songALive : Song :=
  { songA with title := some "A - Live" }

/-- C4: mergeAndFlush is idempotent — merging the same record list twice
into the same destination yields the identical final song list and the
identical recomputed per-singer counts. -/
theorem mergeAndFlush_idempotent (newSongs existing : List Song) :
    mergeSongs newSongs (mergeSongs newSongs existing) =
        mergeSongs newSongs existing ∧
      singerStats (mergeSongs newSongs (mergeSongs newSongs existing)) =
        singerStats (mergeSongs newSongs existing) := by
  refine ⟨mergeSongs_idem newSongs existing, ?_⟩
  rw [mergeSongs_idem]

/-- C5: the merge layer is last-writer-wins by `songKey`: overlaying two
records with the same key in order leaves the second one as the stored
record for that key, with no longer-title preference applied. -/
theorem merge_last_writer_wins (existing : List Song) (r1 r2 : Song)
    (hkey : songKey r1 = songKey r2) :
    lookupA (overlay (buildMap existing) [r1, r2]) (songKey r2) = some r2 ∧
      r2 ∈ mergeSongs [r1, r2] existing ∧
      (r1 ≠ r2 → r1 ∉ mergeSongs [r1, r2] existing) := by
  have hlook : lookupA (overlay (buildMap existing) [r1, r2]) (songKey r2) =
      some r2 := by
    rw [lookupA_overlay]
    simp [lastFind]
  refine ⟨hlook, ?_, ?_⟩
  · exact List.mem_map_of_mem Prod.snd (lookupA_mem _ _ _ hlook)
  · intro hne hmem
    obtain ⟨p, hp, hps⟩ := List.mem_map.1 hmem
    have hinv : KeyInv (overlay (buildMap existing) [r1, r2]) :=
      keyInv_overlay _ _ (keyInv_overlay [] existing (by intro q hq; cases hq))
    have hnd : (keysA (overlay (buildMap existing) [r1, r2])).Nodup :=
      nodup_keysA_overlay _ _ (nodup_keysA_overlay [] existing (by simp [keysA]))
    have hp1 : p.1 = songKey r1 := by rw [hinv p hp, hps]
    have : lookupA (overlay (buildMap existing) [r1, r2]) (songKey r1) = some r1 := by
      have hpe : p = (songKey r1, r1) := by
        obtain ⟨p1, p2⟩ := p
        simp only at hp1 hps
        rw [hp1, hps]
      exact mem_lookupA _ _ _ (hpe ▸ hp) hnd
    rw [hkey, hlook] at this
    injection this with hr
    exact hne hr.symm

/-- C5 witness: the spec scenario — two records sharing an id, titles
"A" then "A - Live", merged in that order into an empty destination, leave
"A - Live" as the stored record for that id. -/
theorem merge_last_writer_wins_witness :
    lookupA (overlay (buildMap []) [songA, songALive]) (songKey songALive) =
        some songALive ∧
      songALive ∈ mergeSongs [songA, songALive] [] ∧
      songA ∉ mergeSongs [songA, songALive] [] := by
  have h := merge_last_writer_wins [] songA songALive (by decide)
  exact ⟨h.1, h.2.1, h.2.2 (by decide)⟩

/-- C3 counterexample: the previously persisted destination content is not
preserved across a failed flush.  With an unreadable destination,
`MusicCrawlerManager._merge_songs_into_file`'s fallback (even though its own
write succeeds) replaces the stored bytes with a dataset holding only the
new songs; and when the merged write raises mid-dump,
`SongCrawler._merge_songs_into_file` leaves the destination truncated rather
than holding its previous dataset. -/
theorem manager_merge_overwrites_on_corrupt_counterexample :
    (MusicCrawlerManager_mergeSongsIntoFile "t0" [songA] (.corrupt "old-bytes")
        .ok .ok).1 ≠ FileState.corrupt "old-bytes" ∧
      (MusicCrawlerManager_mergeSongsIntoFile "t0" [songA] (.corrupt "old-bytes")
        .ok .ok).1 = FileState.data ⟨1, 0, "t0", [], [songA]⟩ ∧
      SongCrawler_mergeSongsIntoFile "t0" [songA]
          (.data (mkDataset "t0" [songALive])) (.fail "") ≠
        FileState.data (mkDataset "t0" [songALive]) := by
  refine ⟨by decide, rfl, by decide⟩

/-- C3 amended: every storage I/O failure during a merge-flush is caught and
logged, so the scheduler is not crashed — both functions return normally on
every input — but the previously persisted destination content survives only
one failure mode: a read failure in `SongCrawler._merge_songs_into_file`
(the write never starts, the destination is untouched).  A write raising
mid-dump there leaves the destination truncated to the partial bytes.
`MusicCrawlerManager._merge_songs_into_file` reacts to either failure — an
unreadable destination or a mid-dump raise of the merged write — by
overwriting the destination with a fallback dataset holding only the new
records and zeroed aggregates and reporting their count, and when that
fallback dump also raises it leaves the truncated fallback bytes and
reports 0. -/
theorem merge_flush_storage_failure_behavior (now : String)
    (newSongs : List Song) (raw partialRaw : String) (d : Dataset)
    (w : WriteOutcome) :
    SongCrawler_mergeSongsIntoFile now newSongs (.corrupt raw) w = .corrupt raw ∧
      SongCrawler_mergeSongsIntoFile now newSongs (.data d) (.fail partialRaw) =
        .corrupt partialRaw ∧
      MusicCrawlerManager_mergeSongsIntoFile now newSongs (.corrupt raw) w .ok =
        (FileState.data ⟨newSongs.length, 0, now, [], newSongs⟩, newSongs.length) ∧
      MusicCrawlerManager_mergeSongsIntoFile now newSongs (.data d)
          (.fail partialRaw) .ok =
        (FileState.data ⟨newSongs.length, 0, now, [], newSongs⟩, newSongs.length) ∧
      MusicCrawlerManager_mergeSongsIntoFile now newSongs (.data d)
          (.fail partialRaw) (.fail raw) = (FileState.corrupt raw, 0) := by
  exact ⟨rfl, rfl, rfl, rfl, rfl⟩

/-- C1 counterexample: for a non-fresh unit whose only page fetch fails,
`crawl_singer_songs` produces zero records yet still calls
`_update_last_crawl` — refuting the claimed "called iff at least one record
was produced and no exception occurred". -/
theorem markSuccess_zero_records_counterexample :
    (crawlSingerSongs [] 0 28 "s1" (.pages [none])).markedSuccess = true ∧
      (crawlSingerSongs [] 0 28 "s1" (.pages [none])).songs = [] ∧
      ¬ ((crawlSingerSongs [] 0 28 "s1" (.pages [none])).markedSuccess = true ↔
          (crawlSingerSongs [] 0 28 "s1" (.pages [none])).songs ≠ [] ∧
            (UnitOutcome.pages [none] : UnitOutcome) ≠ UnitOutcome.exc) := by
  decide

/-- C1 amended: for a non-fresh unit, `_update_last_crawl` (markSuccess) is
called iff no unit-level exception occurred — regardless of how many records
were produced; on an exception the cache is left unchanged, and a success
write stores the current time for the unit. -/
theorem markSuccess_iff_no_exception (cache : RecrawlCache) (now : Int)
    (cacheDays : Int) (singerId : String) (outcome : UnitOutcome)
    (hfresh : isRecent cache now cacheDays singerId = false) :
    ((crawlSingerSongs cache now cacheDays singerId outcome).markedSuccess = true ↔
        outcome ≠ .exc) ∧
      (outcome = .exc →
        (crawlSingerSongs cache now cacheDays singerId outcome).cache = cache) ∧
      ((crawlSingerSongs cache now cacheDays singerId outcome).markedSuccess = true →
        (crawlSingerSongs cache now cacheDays singerId outcome).cache =
          updateLastCrawl cache singerId now) := by
  cases outcome <;> simp [crawlSingerSongs, hfresh]

/-- C1 amended witness: a concrete non-fresh unit with one successful page. -/
theorem markSuccess_iff_no_exception_witness :
    ((crawlSingerSongs [] 0 28 "s1" (.pages [some [songA]])).markedSuccess = true ↔
        (UnitOutcome.pages [some [songA]] : UnitOutcome) ≠ UnitOutcome.exc) ∧
      ((UnitOutcome.pages [some [songA]] : UnitOutcome) = UnitOutcome.exc →
        (crawlSingerSongs [] 0 28 "s1" (.pages [some [songA]])).cache = []) ∧
      ((crawlSingerSongs [] 0 28 "s1" (.pages [some [songA]])).markedSuccess = true →
        (crawlSingerSongs [] 0 28 "s1" (.pages [some [songA]])).cache =
          updateLastCrawl [] "s1" 0) :=
  markSuccess_iff_no_exception [] 0 28 "s1" (.pages [some [songA]]) (by decide)

/-- C6: the recrawl cache reports a unit fresh iff a parsed success
timestamp exists and now minus that timestamp is strictly below the TTL;
with a 28-day TTL a unit marked 10 days ago is fresh, one marked 40 days ago
is not, and an unparseable or missing entry yields not-fresh. -/
theorem isRecent_iff_within_ttl :
    (∀ (cache : RecrawlCache) (now cacheDays : Int) (singerId : String),
        isRecent cache now cacheDays singerId = true ↔
          ∃ t, getLastCrawlTs cache singerId = some t ∧
            now - t < cacheDays * secPerDay) ∧
      isRecent [("u", .ok (-(10 * secPerDay)))] 0 28 "u" = true ∧
      isRecent [("u", .ok (-(40 * secPerDay)))] 0 28 "u" = false ∧
      isRecent [("u", .bad "not-a-timestamp")] 0 28 "u" = false ∧
      isRecent [] 0 28 "u" = false := by
  refine ⟨?_, by decide, by decide, by decide, by decide⟩
  intro cache now cacheDays singerId
  unfold isRecent
  rcases h : getLastCrawlTs cache singerId with _ | t
  · simp
  · simp [h]

theorem getPageContentAux_empty_pool (safeMode : Bool) (idx : Nat)
    (attempts : List (Nat × FetchAttempt)) (h : attempts ≠ []) :
    (getPageContentAux safeMode true [] idx attempts).requests ≠ [] ∧
      ∀ q ∈ (getPageContentAux safeMode true [] idx attempts).requests, q = none := by
  induction attempts generalizing idx with
  | nil => exact absurd rfl h
  | cons a rest ih =>
    obtain ⟨r, o⟩ := a
    cases o with
    | ok text =>
      simp [getPageContentAux, getRandomProxy]
    | fail =>
      by_cases hr : rest.isEmpty
      · simp [getPageContentAux, getRandomProxy, hr]
      · have hrest : rest ≠ [] := by
          intro he; rw [he] at hr; exact hr rfl
        obtain ⟨hne, hall⟩ := ih (idx + 1) hrest
        refine ⟨?_, ?_⟩
        · simp [getPageContentAux, getRandomProxy, hr]
        · intro q hq
          have hstep : (getPageContentAux safeMode true [] idx ((r, .fail) :: rest)).requests =
              none :: (getPageContentAux safeMode true [] (idx + 1) rest).requests := by
            simp [getPageContentAux, getRandomProxy, hr]
          rw [hstep] at hq
          rcases List.mem_cons.1 hq with hq1 | hq1
          · exact hq1
          · exact hall q hq1

/-- C7: with proxying enabled and zero working endpoints, `get_random_proxy`
returns `None` (without blocking — it is a total function), and
`get_page_content` still issues each of its attempts as a direct request
(no proxy configured) instead of failing immediately. -/
theorem fetch_direct_when_pool_empty (safeMode : Bool) (r : Nat)
    (attempts : List (Nat × FetchAttempt)) (h : attempts ≠ []) :
    getRandomProxy [] r = none ∧
      (getPageContent safeMode true [] attempts).requests ≠ [] ∧
      ∀ q ∈ (getPageContent safeMode true [] attempts).requests, q = none := by
  refine ⟨rfl, ?_, ?_⟩
  · exact (getPageContentAux_empty_pool safeMode 0 attempts h).1
  · exact (getPageContentAux_empty_pool safeMode 0 attempts h).2

/-- C7 witness: a two-attempt run against the empty pool. -/
theorem fetch_direct_when_pool_empty_witness :
    getRandomProxy [] 5 = none ∧
      (getPageContent false true [] [(3, .fail), (4, .ok "body")]).requests ≠ [] ∧
      ∀ q ∈ (getPageContent false true [] [(3, .fail), (4, .ok "body")]).requests,
        q = none :=
  fetch_direct_when_pool_empty false 5 [(3, .fail), (4, .ok "body")] (by decide)

/-- C2 counterexample: a download whose attempts all fail at the network
level, the last one mid-stream after 7 bytes were written, returns failure
but leaves the truncated 7-byte file at the final target path — refuting the
claimed temporary-location-plus-rename strategy and the claimed absence of
truncated files after a failed fetch. -/
theorem download_truncated_file_counterexample :
    downloadSong [.reqFail, .reqFail, .streamFail 7] =
        ⟨false, some 7, [1, 2]⟩ ∧
      (downloadSong [.reqFail, .reqFail, .streamFail 7]).file ≠ none := by
  exact ⟨rfl, by decide⟩

theorem downloadAttempts_result_true (idx : Nat) (file : Option Nat)
    (outcomes : List DlAttempt)
    (h : (downloadAttempts idx file outcomes).result = true) :
    ∃ n, 0 < n ∧ (downloadAttempts idx file outcomes).file = some n := by
  induction outcomes generalizing idx file with
  | nil => simp [downloadAttempts] at h
  | cons a rest ih =>
    cases a with
    | reqFail =>
      by_cases hr : rest.isEmpty
      · simp [downloadAttempts, hr] at h
      · simp only [downloadAttempts, hr, if_neg hr, ite_false] at h ⊢
        exact ih (idx + 1) file h
    | streamFail w =>
      by_cases hr : rest.isEmpty
      · simp [downloadAttempts, hr] at h
      · simp only [downloadAttempts, hr, if_neg hr, ite_false] at h ⊢
        exact ih (idx + 1) (some w) h
    | otherFail w => simp [downloadAttempts] at h
    | done n =>
      by_cases hn : n > 0
      · refine ⟨n, hn, ?_⟩
        simp [downloadAttempts, hn]
      · simp only [downloadAttempts, hn, if_neg hn, ite_false] at h ⊢
        exact ih (idx + 1) none h

theorem downloadAttempts_no_streamFail (idx : Nat) (outcomes : List DlAttempt)
    (hs : ∀ w, DlAttempt.streamFail w ∉ outcomes)
    (h : (downloadAttempts idx none outcomes).result = false) :
    (downloadAttempts idx none outcomes).file = none := by
  induction outcomes generalizing idx with
  | nil => simp [downloadAttempts]
  | cons a rest ih =>
    have hs2 : ∀ w, DlAttempt.streamFail w ∉ rest := by
      intro w hw
      exact hs w (List.mem_cons_of_mem _ hw)
    cases a with
    | reqFail =>
      by_cases hr : rest.isEmpty
      · simp [downloadAttempts, hr]
      · simp only [downloadAttempts, hr, if_neg hr, ite_false] at h ⊢
        exact ih (idx + 1) hs2 h
    | streamFail w => exact absurd (List.mem_cons_self _ _) (hs w)
    | otherFail w => simp [downloadAttempts]
    | done n =>
      by_cases hn : n > 0
      · simp [downloadAttempts, hn] at h
      · simp only [downloadAttempts, hn, if_neg hn, ite_false] at h ⊢
        exact ih (idx + 1) hs2 h

/-- C2 amended: the stream is written directly to the final path, so only a
mid-stream network failure can leave a file behind: when no attempt fails
mid-stream, a failed download leaves no file at the final target path (in
particular a zero-byte completed stream is treated as failure and its file
removed), and a successful download leaves a non-empty file. -/
theorem download_failure_leaves_no_file (outcomes : List DlAttempt) :
    ((∀ w, DlAttempt.streamFail w ∉ outcomes) →
        (downloadSong outcomes).result = false →
        (downloadSong outcomes).file = none) ∧
      ((downloadSong outcomes).result = true →
        ∃ n, 0 < n ∧ (downloadSong outcomes).file = some n) :=
  ⟨fun hs h => downloadAttempts_no_streamFail 0 outcomes hs h,
   fun h => downloadAttempts_result_true 0 none outcomes h⟩

/-- C2 amended witness: a request failure followed by a zero-byte completed
stream ends in failure with no file left at the target path. -/
theorem download_failure_leaves_no_file_witness :
    (downloadSong [DlAttempt.reqFail, DlAttempt.done 0]).file = none :=
  (download_failure_leaves_no_file [DlAttempt.reqFail, DlAttempt.done 0]).1
    (by intro w hw; simp at hw) (by decide)

/-- C8 counterexample: in the page-fetch path without safe mode the first
backoff sleep is exactly 1 second — equal to the exponential base with zero
jitter — and in the download path under safe mode the first backoff sleep is
still 1 second, below the claimed safe-mode-multiplied base plus positive
jitter.  Both refute the claimed "small random jitter is added". -/
theorem backoff_no_jitter_counterexample :
    (getPageContent false true [] [(0, .fail), (0, .fail), (0, .fail)]).sleeps =
        [1, 2] ∧
      ¬ specBackoffDelay false 0 1 ∧
      (downloadSong [.reqFail, .reqFail, .reqFail]).sleeps = [1, 2] ∧
      ¬ specBackoffDelay true 0 1 := by
  refine ⟨by decide, ?_, by decide, ?_⟩
  · rintro ⟨j, hj, h⟩
    have h2 : (1 : Nat) = 1 + j := by simpa using h
    omega
  · rintro ⟨j, hj, h⟩
    have h2 : (1 : Nat) = 2 + j := by simpa using h
    omega

theorem getPageContentAux_sleeps (safeMode useProxy : Bool)
    (working : List Proxy) (idx : Nat) (attempts : List (Nat × FetchAttempt)) :
    (getPageContentAux safeMode useProxy working idx attempts).sleeps =
      (List.range (min (leadFails attempts) (attempts.length - 1))).map
        (fun i => 2 ^ (idx + i) * (if safeMode then 2 else 1)) := by
  induction attempts generalizing working idx with
  | nil => simp [getPageContentAux, leadFails]
  | cons a rest ih =>
    obtain ⟨r, o⟩ := a
    cases o with
    | ok text => simp [getPageContentAux, leadFails]
    | fail =>
      by_cases hr : rest.isEmpty
      · have hre : rest = [] := List.isEmpty_iff.1 hr
        subst hre
        simp [getPageContentAux, leadFails]
      · have hne : rest ≠ [] := by
          intro he; rw [he] at hr; exact hr rfl
        have hlen1 : 1 ≤ rest.length := List.length_pos.2 hne
        have hmin : min (leadFails ((r, FetchAttempt.fail) :: rest))
            (((r, FetchAttempt.fail) :: rest).length - 1) =
              min (leadFails rest) (rest.length - 1) + 1 := by
          simp only [leadFails, List.length_cons, Nat.add_sub_cancel]
          omega
        have hstep : (getPageContentAux safeMode useProxy working idx
            ((r, FetchAttempt.fail) :: rest)).sleeps =
              2 ^ idx * (if safeMode then 2 else 1) ::
                (getPageContentAux safeMode useProxy
                  (match (if useProxy then getRandomProxy working r else none) with
                    | some p => markProxyFailed working p
                    | none => working) (idx + 1) rest).sleeps := by
          simp [getPageContentAux, hr]
        rw [hstep, ih, hmin, List.range_succ_eq_map]
        simp only [List.map_cons, List.map_map, Nat.add_zero]
        congr 1
        apply List.map_congr_left
        intro i hi
        simp only [Function.comp_apply]
        congr 2
        omega

theorem downloadAttempts_sleeps_all_netFail (idx : Nat) (file : Option Nat)
    (outcomes : List DlAttempt) (h : ∀ a ∈ outcomes, isNetFail a) :
    (downloadAttempts idx file outcomes).sleeps =
      (List.range (outcomes.length - 1)).map (fun i => 2 ^ (idx + i)) := by
  induction outcomes generalizing idx file with
  | nil => simp [downloadAttempts]
  | cons a rest ih =>
    have h2 : ∀ b ∈ rest, isNetFail b := fun b hb => h b (List.mem_cons_of_mem _ hb)
    have hrange : ∀ (j : Nat), rest ≠ [] →
        (List.range ((a :: rest).length - 1)).map (fun i => 2 ^ (j + i)) =
          2 ^ j :: (List.range (rest.length - 1)).map (fun i => 2 ^ (j + 1 + i)) := by
      intro j hne
      have hlen : (a :: rest).length - 1 = (rest.length - 1) + 1 := by
        cases rest with
        | nil => exact absurd rfl hne
        | cons b t => simp
      rw [hlen, List.range_succ_eq_map]
      simp only [List.map_cons, List.map_map, Nat.add_zero]
      congr 1
      apply List.map_congr_left
      intro i hi
      simp only [Function.comp_apply]
      congr 1
      omega
    rcases h a (List.mem_cons_self _ _) with ha | ⟨w, ha⟩ <;> subst ha
    · by_cases hr : rest.isEmpty
      · have hre : rest = [] := List.isEmpty_iff.1 hr
        subst hre
        simp [downloadAttempts]
      · have hne : rest ≠ [] := by
          intro he; rw [he] at hr; exact hr rfl
        have hstep : (downloadAttempts idx file (DlAttempt.reqFail :: rest)).sleeps =
            2 ^ idx :: (downloadAttempts (idx + 1) file rest).sleeps := by
          simp [downloadAttempts, hr]
        rw [hstep, ih _ _ h2, hrange idx hne]
    · by_cases hr : rest.isEmpty
      · have hre : rest = [] := List.isEmpty_iff.1 hr
        subst hre
        simp [downloadAttempts]
      · have hne : rest ≠ [] := by
          intro he; rw [he] at hr; exact hr rfl
        have hstep : (downloadAttempts idx file (DlAttempt.streamFail w :: rest)).sleeps =
            2 ^ idx :: (downloadAttempts (idx + 1) (some w) rest).sleeps := by
          simp [downloadAttempts, hr]
        rw [hstep, ih _ _ h2, hrange idx hne]

/-- C8 amended: the backoff before retry i is exactly exponential with no
jitter — the page-fetch path sleeps 2 to the power of the attempt index,
doubled when safe mode is active, for each leading failed non-final attempt;
the download path sleeps exactly 2 to the power of the attempt index with no
safe-mode multiplier and no jitter. -/
theorem backoff_exponential_no_jitter :
    (∀ (safeMode useProxy : Bool) (working : List Proxy)
        (attempts : List (Nat × FetchAttempt)),
        (getPageContent safeMode useProxy working attempts).sleeps =
          (List.range (min (leadFails attempts) (attempts.length - 1))).map
            (fun i => 2 ^ i * (if safeMode then 2 else 1))) ∧
      (∀ outcomes : List DlAttempt, (∀ a ∈ outcomes, isNetFail a) →
        (downloadSong outcomes).sleeps =
          (List.range (outcomes.length - 1)).map (fun i => 2 ^ i)) := by
  constructor
  · intro safeMode useProxy working attempts
    have h := getPageContentAux_sleeps safeMode useProxy working 0 attempts
    simpa [getPageContent] using h
  · intro outcomes h
    have h2 := downloadAttempts_sleeps_all_netFail 0 none outcomes h
    simpa [downloadSong] using h2

/-- C8 amended witness: a safe-mode page run with three failing attempts
sleeps exactly 2 and 4 seconds; a download run with three network failures
sleeps exactly 1 and 2 seconds. -/
theorem backoff_exponential_no_jitter_witness :
    (getPageContent true true [] [(0, .fail), (0, .fail), (0, .fail)]).sleeps =
        (List.range (min
          (leadFails [(0, FetchAttempt.fail), (0, .fail), (0, .fail)])
          (([(0, FetchAttempt.fail), (0, .fail), (0, .fail)] :
            List (Nat × FetchAttempt)).length - 1))).map
          (fun i => 2 ^ i * (if true then 2 else 1)) ∧
      (downloadSong [.reqFail, .reqFail, .reqFail]).sleeps =
        (List.range (([DlAttempt.reqFail, .reqFail, .reqFail] :
          List DlAttempt).length - 1)).map (fun i => 2 ^ i) := by
  constructor
  · exact backoff_exponential_no_jitter.1 true true []
      [(0, .fail), (0, .fail), (0, .fail)]
  · exact backoff_exponential_no_jitter.2 [.reqFail, .reqFail, .reqFail]
      (by intro a ha; simp at ha; subst ha; exact Or.inl rfl)

theorem replChar_replChar (c : Char) : replChar (replChar c) = replChar c := by
  by_cases h : c ∈ illegalChars
  · simp only [replChar, if_pos h]
    decide
  · simp only [replChar, if_neg h]

theorem replChar_not_illegal (c : Char) : replChar c ∉ illegalChars := by
  by_cases h : c ∈ illegalChars
  · simp only [replChar, if_pos h]
    decide
  · simpa only [replChar, if_neg h] using h

theorem dropWhile_eq_cons_imp (p : Char → Bool) (l t : List Char) (c : Char)
    (h : l.dropWhile p = c :: t) : p c = false := by
  induction l with
  | nil => simp [List.dropWhile] at h
  | cons a l2 ih =>
    by_cases ha : p a
    · rw [List.dropWhile_cons, if_pos ha] at h
      exact ih h
    · rw [List.dropWhile_cons, if_neg ha] at h
      injection h with h1 h2
      subst h1
      exact Bool.eq_false_iff.2 ha

theorem dropWhile_dropWhile (p : Char → Bool) (l : List Char) :
    (l.dropWhile p).dropWhile p = l.dropWhile p := by
  rcases h : l.dropWhile p with _ | ⟨c, t⟩
  · rfl
  · rw [List.dropWhile_cons, if_neg (by simp [dropWhile_eq_cons_imp p l t c h])]

theorem getLast?_dropWhile (p : Char → Bool) (l : List Char) :
    l.dropWhile p = [] ∨ (l.dropWhile p).getLast? = l.getLast? := by
  induction l with
  | nil => exact Or.inl rfl
  | cons a l2 ih =>
    by_cases ha : p a
    · rw [List.dropWhile_cons, if_pos ha]
      rcases ih with h | h
      · exact Or.inl h
      · cases l2 with
        | nil => exact Or.inl (by simp [h])
        | cons b t => exact Or.inr (by rw [h, List.getLast?_cons_cons])
    · rw [List.dropWhile_cons, if_neg ha]
      exact Or.inr rfl

theorem dropTrailing_sublist (l : List Char) : (dropTrailing l).Sublist l := by
  have h1 : (l.reverse.dropWhile isPySpace).Sublist l.reverse :=
    List.dropWhile_sublist isPySpace
  have h2 := h1.reverse
  rwa [List.reverse_reverse] at h2

theorem dropTrailing_dropTrailing (l : List Char) :
    dropTrailing (dropTrailing l) = dropTrailing l := by
  simp [dropTrailing, List.reverse_reverse, dropWhile_dropWhile]

theorem dropWhile_dropTrailing (l : List Char)
    (h : l.dropWhile isPySpace = l) :
    (dropTrailing l).dropWhile isPySpace = dropTrailing l := by
  rcases hd : dropTrailing l with _ | ⟨c, t⟩
  · rfl
  · have hhead : (dropTrailing l).head? = some c := by rw [hd]; rfl
    rcases getLast?_dropWhile isPySpace l.reverse with hnil | hlast
    · rw [dropTrailing, hnil] at hd
      simp at hd
    · have hc : l.head? = some c := by
        have e1 : (dropTrailing l).head? = (l.reverse.dropWhile isPySpace).getLast? := by
          rw [dropTrailing]
          exact List.head?_reverse _
        rw [hlast, List.getLast?_reverse] at e1
        rw [← e1, hhead]
      cases l with
      | nil => simp at hc
      | cons a l2 =>
        have hac : a = c := by simpa using hc
        subst hac
        have hpa : isPySpace a = false := dropWhile_eq_cons_imp _ _ _ _ h
        rw [List.dropWhile_cons]
        rw [if_neg (by simp [hpa])]

theorem pyStrip_idem (l : List Char) : pyStrip (pyStrip l) = pyStrip l := by
  have hm : (l.dropWhile isPySpace).dropWhile isPySpace = l.dropWhile isPySpace :=
    dropWhile_dropWhile isPySpace l
  show dropTrailing ((dropTrailing (l.dropWhile isPySpace)).dropWhile isPySpace) =
    dropTrailing (l.dropWhile isPySpace)
  rw [dropWhile_dropTrailing _ hm, dropTrailing_dropTrailing]

theorem pyStrip_sublist (l : List Char) : (pyStrip l).Sublist l :=
  (dropTrailing_sublist _).trans (List.dropWhile_sublist isPySpace)

/-- C10: sanitize_filename removes all nine illegal path characters, bounds
the result to 200 characters, and is idempotent. -/
theorem sanitize_filename_spec (s : String) :
    (∀ c ∈ (sanitizeFilename s).toList, c ∉ illegalChars) ∧
      (sanitizeFilename s).length ≤ 200 ∧
      sanitizeFilename (sanitizeFilename s) = sanitizeFilename s := by
  have hmem : ∀ c ∈ (sanitizeFilename s).toList, c ∉ illegalChars := by
    intro c hc
    have hc1 : c ∈ (s.toList.map replChar).take 200 :=
      (pyStrip_sublist _).subset hc
    have hc2 : c ∈ s.toList.map replChar := (List.take_subset _ _) hc1
    obtain ⟨c0, _, hc0⟩ := List.mem_map.1 hc2
    rw [← hc0]
    exact replChar_not_illegal c0
  refine ⟨hmem, ?_, ?_⟩
  · have h1 : (pyStrip ((s.toList.map replChar).take 200)).length ≤
        ((s.toList.map replChar).take 200).length :=
      (pyStrip_sublist _).length_le
    have h2 : ((s.toList.map replChar).take 200).length ≤ 200 := by
      rw [List.length_take]
      exact min_le_left _ _
    exact le_trans h1 h2
  · show String.mk (pyStrip (((pyStrip ((s.toList.map replChar).take 200)).map
      replChar).take 200)) = _
    have hid : (pyStrip ((s.toList.map replChar).take 200)).map replChar =
        pyStrip ((s.toList.map replChar).take 200) := by
      have : ∀ c ∈ pyStrip ((s.toList.map replChar).take 200), replChar c = c := by
        intro c hc
        have : c ∉ illegalChars := hmem c hc
        simp [replChar, this]
      calc (pyStrip ((s.toList.map replChar).take 200)).map replChar
          = (pyStrip ((s.toList.map replChar).take 200)).map id :=
            List.map_congr_left this
        _ = _ := List.map_id _
    rw [hid]
    have hlen : (pyStrip ((s.toList.map replChar).take 200)).length ≤ 200 := by
      have h1 := (pyStrip_sublist ((s.toList.map replChar).take 200)).length_le
      have h2 : ((s.toList.map replChar).take 200).length ≤ 200 := by
        rw [List.length_take]
        exact min_le_left _ _
      exact le_trans h1 h2
    rw [List.take_of_length_le hlen, pyStrip_idem]
    rfl

/-- C9: when a page yields two records with the same song id, the parser
keeps one record whose title is the longer of the two titles (the second
wins only when strictly longer or when the first is empty), and the record
is dropped from the result when that title is empty after stripping. -/
theorem parse_dedup_keeps_longer_title (baseUrl singerId singerName : String)
    (i t1 t2 h1 h2 : String) :
    parseSongsFromSingerPage baseUrl singerId singerName
        [⟨i, t1, h1⟩, ⟨i, t2, h2⟩] =
      (if pyStripStr (keptTitle t1 t2) = "" then []
       else [withTitle (mkParsedSong baseUrl singerId singerName ⟨i, t1, h1⟩)
         (keptTitle t1 t2)]) ∧
      (keptTitle t1 t2).length = max t1.length t2.length ∧
      (keptTitle t1 t2 = t1 ∨ keptTitle t1 t2 = t2) := by
  have hfold : (List.foldl (parseStep baseUrl singerId singerName) []
      [⟨i, t1, h1⟩, ⟨i, t2, h2⟩]) =
        [(i, withTitle (mkParsedSong baseUrl singerId singerName ⟨i, t1, h1⟩)
          (keptTitle t1 t2))] := by
    by_cases hc : t2.length > t1.length ∨ t1 = ""
    · have hL : keptTitle t1 t2 = t2 := if_pos hc
      rw [hL]
      simp [parseStep, lookupA, storedTitle, mkParsedSong, withTitle, setTitle, hc]
    · have hL : keptTitle t1 t2 = t1 := if_neg hc
      rw [hL]
      have hw : withTitle (mkParsedSong baseUrl singerId singerName ⟨i, t1, h1⟩) t1 =
          mkParsedSong baseUrl singerId singerName ⟨i, t1, h1⟩ := rfl
      rw [hw]
      simp [parseStep, lookupA, storedTitle, mkParsedSong, withTitle, setTitle, hc]
  refine ⟨?_, ?_, ?_⟩
  · show ((List.foldl (parseStep baseUrl singerId singerName) []
        [⟨i, t1, h1⟩, ⟨i, t2, h2⟩]).map Prod.snd).filter
          (fun s => pyStripStr (storedTitle s) ≠ "") = _
    rw [hfold]
    have hti : storedTitle (withTitle (mkParsedSong baseUrl singerId singerName
        ⟨i, t1, h1⟩) (keptTitle t1 t2)) = keptTitle t1 t2 := rfl
    by_cases hs : pyStripStr (keptTitle t1 t2) = ""
    · rw [if_pos hs]
      simp [List.filter, hti, hs]
    · rw [if_neg hs]
      simp [List.filter, hti, hs]
  · by_cases hc : t2.length > t1.length ∨ t1 = ""
    · have hL : keptTitle t1 t2 = t2 := if_pos hc
      rw [hL]
      rcases hc with hgt | hemp
      · exact (Nat.max_eq_right (Nat.le_of_lt hgt)).symm
      · rw [hemp]
        simp
    · have hL : keptTitle t1 t2 = t1 := if_neg hc
      push_neg at hc
      rw [hL]
      exact (Nat.max_eq_left hc.1).symm
  · by_cases hc : t2.length > t1.length ∨ t1 = ""
    · exact Or.inr (if_pos hc)
    · exact Or.inl (if_neg hc)

end MusicSearch
